import Mathlib

/-!
Shallow embedding of the mono-deps-analyzer repository
(`src/monodeps/analyzer.py` and `src/monodeps/cli.py`): import
classification and module-file resolution (`ImportAnalyzer`), the
fixpoint work-queue traversal (`DependencyAnalyzer.analyze_project`),
version binding and requirements emission
(`generate_requirements` / `write_requirements`), and the `cli.main`
entry point.  The theorems at the end settle the spec claims C1 to C10.
-/

namespace Monodeps

/-- A filesystem path, modelled as its list of components
(`pathlib.Path` joins components; we never need the root marker). -/
abbrev FPath := List String

/-- The filesystem, as an existence predicate on paths
(`Path.exists` in the source). -/
abbrev FileSystem := FPath → Bool

/-- A dotted import path, represented by its dot-separated segments.
The source carries it as a string and computes
`parts = import_name.split(".")` on use; since segments never contain a
dot, the segment list is a faithful representation and the split becomes
the identity here. -/
abbrev ImportPath := List String

/-- Mirrors `full_module_path.with_suffix(".py")`: append `.py` to the last
component.  Import-path segments come from splitting on dots, hence contain
no dot themselves, so appending agrees with the replace-last-suffix
semantics of `with_suffix` on every reachable input. -/
def withPy : FPath → FPath
  | [] => []
  | [x] => [x ++ ".py"]
  | x :: y :: xs => x :: withPy (y :: xs)

/-- The body of the inner `for i in range(len(import_parts))` loop of
`ImportAnalyzer._find_module_file` (analyzer.py lines 75-86): when the
prefix `import_parts[:i+1]` is a package directory, try the remaining
suffix beneath it as a module file, then as a package. -/
def trySubmodule (fsys : FileSystem) (base : FPath) (parts : List String)
    (i : Nat) : Option (FPath × Bool) :=
  let partPath := base ++ parts.take (i + 1)
  if fsys (partPath ++ ["__init__.py"]) then
    let remaining := parts.drop (i + 1)
    if remaining.isEmpty then none
    else
      let submodule := partPath ++ remaining
      if fsys (withPy submodule) then some (withPy submodule, false)
      else if fsys (submodule ++ ["__init__.py"]) then
        some (submodule ++ ["__init__.py"], true)
      else none
  else none

/-- One iteration of the `for base_path in search_paths` loop of
`_find_module_file` (analyzer.py lines 60-86): direct module file, then
package initializer, then the submodule-in-package scan. -/
def tryRoot (fsys : FileSystem) (parts : List String) (base : FPath) :
    Option (FPath × Bool) :=
  let fullModulePath := base ++ parts
  if fsys (withPy fullModulePath) then some (withPy fullModulePath, false)
  else if fsys (fullModulePath ++ ["__init__.py"]) then
    some (fullModulePath ++ ["__init__.py"], true)
  else (List.range parts.length).findSome? (trySubmodule fsys base parts)

/-- `ImportAnalyzer._find_module_file` (analyzer.py lines 49-88): scan the
assembled search paths in order, returning the first match. -/
def findModuleFile (fsys : FileSystem) (searchPaths : List FPath)
    (parts : List String) : Option (FPath × Bool) :=
  searchPaths.findSome? (tryRoot fsys parts)

/-- The mutable discovery state of one `ImportAnalyzer`
(`project_imports`, `external_imports`, `files_to_process`). -/
structure ImportState where
  projectImports : Finset ImportPath
  externalImports : Finset String
  filesToProcess : Finset (ImportPath × FPath)
deriving DecidableEq

/-- A fresh `ImportAnalyzer` starts with empty discovery sets
(analyzer.py lines 14-19). -/
def initImportState : ImportState := ⟨∅, ∅, ∅⟩

/-- `ImportAnalyzer._process_import` (analyzer.py lines 90-109): split the
dotted name, ignore it when the top-level segment is in the stdlib
snapshot, otherwise resolve it; a local match records the import and its
file, a miss records the top-level segment as an external dependency. -/
def processImport (stdlib : Finset String) (fsys : FileSystem)
    (searchPaths : List FPath) (s : ImportState) (importName : ImportPath) :
    ImportState :=
  let parts := importName
  let topLevel := parts.headI
  if topLevel ∈ stdlib then s
  else
    match findModuleFile fsys searchPaths parts with
    | some (moduleFile, _isPackage) =>
        { s with
          projectImports := insert importName s.projectImports,
          filesToProcess := insert (importName, moduleFile) s.filesToProcess }
    | none =>
        { s with externalImports := insert topLevel s.externalImports }

/-- Visiting a parsed tree with a fresh `ImportAnalyzer`: every dotted
path found as an import in the file is fed to `_process_import` in order
(`visit_Import` / `visit_ImportFrom`, analyzer.py lines 39-47). -/
def analyzeImports (stdlib : Finset String) (fsys : FileSystem)
    (searchPaths : List FPath) (imports : List ImportPath) : ImportState :=
  imports.foldl (processImport stdlib fsys searchPaths) initImportState

/-- What one `DependencyAnalyzer.analyze_file` call contributes: the
external names merged into `self.external_dependencies` and the
`(import_path, file_path)` pairs returned for the work queue. -/
structure FileContribution where
  externals : Finset String
  files : Finset (ImportPath × FPath)
deriving DecidableEq

/-- The parse outcome of one file: `none` models unparsable content (the
`except` branch of `analyze_file`), `some imports` the list of dotted
paths imported by the parsed tree. -/
abbrev ParseResult := Option (List ImportPath)

/-- `DependencyAnalyzer.analyze_file` (analyzer.py lines 126-142): on a
successful parse, run a fresh `ImportAnalyzer` over the imports and
return its externals and files; on a parse failure, catch the exception
and contribute nothing at all. -/
def analyzeFile (stdlib : Finset String) (fsys : FileSystem)
    (searchPaths : List FPath) (parse : ParseResult) : FileContribution :=
  match parse with
  | none => ⟨∅, ∅⟩
  | some imports =>
      let st := analyzeImports stdlib fsys searchPaths imports
      ⟨st.externalImports, st.filesToProcess⟩

/-- The per-file failure report of `analyze_file` (the message printed to
stderr in the `except` branch names exactly the failing file). -/
def analyzeFileErrors (parse : ParseResult) (filePath : FPath) : List FPath :=
  match parse with
  | none => [filePath]
  | some _ => []

/-- One sequential analysis pass over a list of files, where the i-th
`analyze_file` call constructs a fresh `ImportAnalyzer` whose stdlib
snapshot is enumerated from the ambient environment at that moment
(`ambient i`); the externals of every file are merged
(analyzer.py lines 17 and 135-137). -/
def runExternals (fsys : FileSystem) (searchPaths : List FPath)
    (ambient : Nat → Finset String) (files : List ParseResult) :
    Finset String :=
  (List.range files.length).foldl
    (fun acc i =>
      acc ∪ (analyzeFile (ambient i) fsys searchPaths (files.getD i none)).externals)
    ∅

/-- The installed-package registry collaborator
(`importlib.metadata.version`): `none` models `PackageNotFoundError`,
so `get_installed_version` (analyzer.py lines 166-171) returns it as is. -/
abbrev Registry := String → Option String

/-- `DependencyAnalyzer.generate_requirements` (analyzer.py lines
173-186): query the registry for every discovered external name; a name
whose lookup is truthy enters the mapping, any other name is only warned
about and dropped.  The dictionary is modelled as the association list
sorted by name, which is the order `write_requirements` emits
(`sorted(requirements.items())`); set-iteration order is irrelevant to
the final mapping. -/
def generateRequirements (lookup : Registry) (externalDeps : Finset String) :
    List (String × String) :=
  (externalDeps.sort (· ≤ ·)).filterMap
    (fun p =>
      match lookup p with
      | some v => if v.isEmpty then none else some (p, v)
      | none => none)

/-- `DependencyAnalyzer.write_requirements` (analyzer.py lines 188-197):
one line per mapping entry, `name==version` for a truthy version and the
bare name otherwise. -/
def writeRequirementsLines (lookup : Registry) (externalDeps : Finset String) :
    List String :=
  (generateRequirements lookup externalDeps).map
    (fun pv => if pv.2.isEmpty then pv.1 else pv.1 ++ "==" ++ pv.2)

/-- The registry-query trace of one `generate_requirements` call: the
`for package in self.external_dependencies` loop calls
`get_installed_version` once per element of the set (analyzer.py lines
178-180); the canonical sorted enumeration stands for the unspecified
set-iteration order, which does not affect per-name query counts. -/
def generateRequirementsQueries (externalDeps : Finset String) : List String :=
  externalDeps.sort (· ≤ ·)

/-- The registry-query trace of `main` in analyzer.py (lines 243-244):
`generate_requirements()` is called directly, and then again inside
`write_requirements(args.output)`. -/
def analyzerMainQueries (externalDeps : Finset String) : List String :=
  generateRequirementsQueries externalDeps ++ generateRequirementsQueries externalDeps

/-- Required positional parameters of `DependencyAnalyzer.__init__`
besides `self`: `entry_points` and `additional_paths` (analyzer.py
line 114), neither with a default. -/
def analyzerInitParamCount : Nat := 2

/-- Positional arguments at the `DependencyAnalyzer(search_paths)` call
in `cli.main` (cli.py line 74). -/
def cliInitArgCount : Nat := 1

/-- Required positional parameters of `DependencyAnalyzer.analyze_project`
besides `self` (analyzer.py line 144): none. -/
def analyzeProjectParamCount : Nat := 0

/-- Positional arguments at the `analyzer.analyze_project([...])` call in
`cli.main` (cli.py line 75). -/
def cliAnalyzeProjectArgCount : Nat := 1

/-- A Python positional call against a fixed-arity signature raises
`TypeError` unless the argument count matches the parameter count. -/
def pyCall (required given : Nat) : Except String Unit :=
  if given = required then Except.ok () else Except.error "TypeError"

/-- Observable outcome of a `cli.main` invocation: its return value and
whether the output file got written. -/
structure CliOutcome where
  exitCode : Nat
  outputWritten : Bool
deriving DecidableEq

/-- The try-block of `cli.main` (cli.py lines 72-94): construct the
analyzer, run the analysis, write the requirements; the first raised
`TypeError` is caught by the blanket `except`, which returns 1 with no
output written. -/
def cliTryBlock : CliOutcome :=
  match pyCall analyzerInitParamCount cliInitArgCount with
  | Except.error _ => ⟨1, false⟩
  | Except.ok _ =>
      match pyCall analyzeProjectParamCount cliAnalyzeProjectArgCount with
      | Except.error _ => ⟨1, false⟩
      | Except.ok _ => ⟨0, true⟩

/-- `cli.main` (cli.py lines 53-94): validate that every entry point
exists (`validate_paths`), returning 1 before any analysis when one is
missing, and otherwise run the try-block. -/
def cliMain (pathExists : String → Bool) (entryPoints : List String) :
    CliOutcome :=
  if entryPoints.all pathExists then cliTryBlock else ⟨1, false⟩

/-- Parent directory of a path (`entry_point.parent`), as dropping the
last component. -/
def parentDir (p : FPath) : FPath := p.dropLast

/-- `DependencyAnalyzer.__init__` lines 120-124: `self.local_paths` is a
Python set seeded with every entry-point parent directory and extended
with the additional paths.  As a set it deduplicates and carries no
specified order. -/
def localPathsSet (entryPoints additionalPaths : List FPath) : Finset FPath :=
  (entryPoints.map parentDir).toFinset ∪ additionalPaths.toFinset

/-- The `list(self.local_paths)` enumeration passed to `ImportAnalyzer`
(analyzer.py line 135).  Python set enumeration order is
implementation-defined; we model it canonically as first-occurrence
deduplication, and state every order-sensitive theorem for an arbitrary
duplicate-free enumeration of `localPathsSet`. -/
def localPathsList (entryPoints additionalPaths : List FPath) : List FPath :=
  (entryPoints.map parentDir ++ additionalPaths).dedup

/-- The search-path assembly of `_find_module_file` (analyzer.py lines
54-58): the local paths, then the PYTHONPATH entries, then the PATH
entries. -/
def searchPathsOf (localList pythonPath pathEnv : List FPath) : List FPath :=
  localList ++ pythonPath ++ pathEnv

/-- The search-root list exactly as claim C5 words it: entry-point parent
directories, then the explicitly supplied extra paths, then the
environment-derived paths, in that order and with multiplicity. -/
def claimedSearchPaths (entryPoints additionalPaths envPaths : List FPath) :
    List FPath :=
  entryPoints.map parentDir ++ additionalPaths ++ envPaths

/-- State of the `analyze_project` loop (analyzer.py lines 144-164):
the pending `files_to_process` set, the `processed_files` set and the
accumulated `external_dependencies` set. -/
structure TravState where
  queue : Finset (ImportPath × FPath)
  visited : Finset FPath
  externalDeps : Finset String
deriving DecidableEq

/-- Per-file effect of the loop body, as a function of the file path:
`none` when `current_file.exists()` is false (no analysis at all), and
`some c` when the file exists and `analyze_file` yields contribution `c`
(which is `⟨∅, ∅⟩` for an unparsable file).  Fixed per run, matching a
filesystem and environment that do not change during the traversal. -/
abbrev Contrib := FPath → Option FileContribution

/-- External names a visit of `f` merges into `external_dependencies`. -/
def extOf (contrib : Contrib) (f : FPath) : Finset String :=
  (contrib f).elim ∅ FileContribution.externals

/-- Work-queue pairs a visit of `f` adds (`files_to_process.update`). -/
def newOf (contrib : Contrib) (f : FPath) : Finset (ImportPath × FPath) :=
  (contrib f).elim ∅ FileContribution.files

/-- One iteration of the `while files_to_process` loop (analyzer.py lines
156-164).  `files_to_process.pop()` removes an arbitrary element, hence a
nondeterministic relation: `skip` discards a pair whose file was already
processed, `visit` marks a new file processed, merges its externals and
enqueues its discovered local files. -/
inductive Step (contrib : Contrib) : TravState → TravState → Prop
  | skip (s : TravState) (ip : ImportPath) (f : FPath)
      (hq : (ip, f) ∈ s.queue) (hv : f ∈ s.visited) :
      Step contrib s ⟨s.queue.erase (ip, f), s.visited, s.externalDeps⟩
  | visit (s : TravState) (ip : ImportPath) (f : FPath)
      (hq : (ip, f) ∈ s.queue) (hv : f ∉ s.visited) :
      Step contrib s
        ⟨s.queue.erase (ip, f) ∪ newOf contrib f,
         insert f s.visited,
         s.externalDeps ∪ extOf contrib f⟩

/-- Any number of loop iterations. -/
def Steps (contrib : Contrib) : TravState → TravState → Prop :=
  Relation.ReflTransGen (Step contrib)

/-- The loop entry state (analyzer.py lines 149-154): the queue holds the
seed pairs synthesized from the entry points, nothing is processed and no
external dependency is known. -/
def initState (seeds : Finset (ImportPath × FPath)) : TravState := ⟨seeds, ∅, ∅⟩

/-- Files reachable from the seeds through discovered local imports:
every seed file, and every file enqueued by the analysis of a reachable file. -/
inductive Reach (contrib : Contrib) (seeds : Finset (ImportPath × FPath)) :
    FPath → Prop
  | seed (ip : ImportPath) (f : FPath) (h : (ip, f) ∈ seeds) :
      Reach contrib seeds f
  | step (f : FPath) (ip' : ImportPath) (f' : FPath)
      (hf : Reach contrib seeds f) (hmem : (ip', f') ∈ newOf contrib f) :
      Reach contrib seeds f'

/-- Invariant of the `analyze_project` loop, relating a loop state to the
seeds: everything processed or pending is reachable, the accumulated
externals are exactly those of the processed files, every discovered
local import of a processed file is processed or pending, and every seed
is processed or pending. -/
structure TravInv (contrib : Contrib) (seeds : Finset (ImportPath × FPath))
    (s : TravState) : Prop where
  visitedReach : ∀ f ∈ s.visited, Reach contrib seeds f
  queueReach : ∀ p ∈ s.queue, Reach contrib seeds p.2
  extChar : ∀ e, e ∈ s.externalDeps ↔ ∃ f ∈ s.visited, e ∈ extOf contrib f
  closedUnder : ∀ f ∈ s.visited, ∀ p ∈ newOf contrib f,
      p.2 ∈ s.visited ∨ p ∈ s.queue
  seedsCovered : ∀ p ∈ seeds, p.2 ∈ s.visited ∨ p ∈ s.queue

/-- Termination measure for the loop over a finite file universe `U` and
pair universe `QU`: unprocessed files weighted by the largest possible
queue, plus the current queue size. -/
def travMeasure (U : Finset FPath) (QU : Finset (ImportPath × FPath))
    (s : TravState) : Nat :=
  (U \ s.visited).card * (QU.card + 1) + s.queue.card

/-- A one-seed demonstration instance used by concrete witnesses: a
single entry point whose file does not exist, so its visit contributes
nothing. -/
def demoSeeds : Finset (ImportPath × FPath) := {(["main"], ["main.py"])}

/-- Per-file effect of the demonstration instance: no file exists. -/
def demoContrib : Contrib := fun _ => none

/-- The state after the single visit step of the demonstration run. -/
def demoFinal : TravState :=
  ⟨(initState demoSeeds).queue.erase (["main"], ["main.py"])
      ∪ newOf demoContrib ["main.py"],
   insert ["main.py"] (initState demoSeeds).visited,
   (initState demoSeeds).externalDeps ∪ extOf demoContrib ["main.py"]⟩

/-- The demonstration run as a step-indexed sequence of states. -/
def demoRun : Nat → TravState :=
  fun k => if k = 0 then initState demoSeeds else demoFinal

/-! ### Helper lemmas -/

/-- A `findSome?` hit splits the list at the first element the function
accepts: everything before it is rejected. -/
theorem findSome_eq_some_split {α β : Type} (f : α → Option β) (l : List α)
    (b : β) :
    l.findSome? f = some b ↔
      ∃ l₁ a l₂, l = l₁ ++ a :: l₂ ∧ (∀ x ∈ l₁, f x = none) ∧ f a = some b := by
  induction l with
  | nil => simp
  | cons hd tl ih =>
      rw [List.findSome?_cons]
      cases hf : f hd with
      | some c =>
          constructor
          · intro h
            exact ⟨[], hd, tl, rfl, by simp, by rw [hf]; exact h⟩
          · rintro ⟨l₁, a, l₂, heq, hnone, ha⟩
            cases l₁ with
            | nil =>
                simp only [List.nil_append, List.cons.injEq] at heq
                rw [← heq.1, hf] at ha
                exact ha
            | cons x l₁ =>
                simp only [List.cons_append, List.cons.injEq] at heq
                have := hnone x (by simp)
                rw [← heq.1, hf] at this
                exact absurd this (by simp)
      | none =>
          rw [ih]
          constructor
          · rintro ⟨l₁, a, l₂, heq, hnone, ha⟩
            refine ⟨hd :: l₁, a, l₂, by rw [heq, List.cons_append], ?_, ha⟩
            intro x hx
            rcases List.mem_cons.mp hx with h | h
            · rw [h]; exact hf
            · exact hnone x h
          · rintro ⟨l₁, a, l₂, heq, hnone, ha⟩
            cases l₁ with
            | nil =>
                simp only [List.nil_append, List.cons.injEq] at heq
                rw [← heq.1, hf] at ha
                exact absurd ha (by simp)
            | cons x l₁ =>
                simp only [List.cons_append, List.cons.injEq] at heq
                exact ⟨l₁, a, l₂, heq.2, fun y hy => hnone y (by simp [hy]), ha⟩

/-- Each loop iteration of `analyze_project` only grows `processed_files`. -/
theorem Step.visited_subset {contrib : Contrib} {s s' : TravState}
    (h : Step contrib s s') : s.visited ⊆ s'.visited := by
  cases h with
  | skip ip f hq hv => exact Finset.Subset.refl _
  | visit ip f hq hv => exact Finset.subset_insert _ _

/-- Each loop iteration either discards a pair without touching
`processed_files` or `external_dependencies`, or processes one new file. -/
theorem Step.discard_or_new {contrib : Contrib} {s s' : TravState}
    (h : Step contrib s s') :
    (s'.visited = s.visited ∧ s'.externalDeps = s.externalDeps) ∨
    ∃ f, f ∉ s.visited ∧ s'.visited = insert f s.visited ∧
      s'.externalDeps = s.externalDeps ∪ extOf contrib f := by
  cases h with
  | skip ip f hq hv => exact Or.inl ⟨rfl, rfl⟩
  | visit ip f hq hv => exact Or.inr ⟨f, hv, rfl, rfl⟩

/-- The invariant holds at the loop entry state. -/
theorem travInv_init (contrib : Contrib) (seeds : Finset (ImportPath × FPath)) :
    TravInv contrib seeds (initState seeds) := by
  refine ⟨?_, ?_, ?_, ?_, ?_⟩
  · intro f hf; exact absurd hf (Finset.not_mem_empty _)
  · intro p hp; exact Reach.seed p.1 p.2 (by simpa using hp)
  · intro e; simp [initState]
  · intro f hf; exact absurd hf (Finset.not_mem_empty _)
  · intro p hp; exact Or.inr hp

/-- The invariant is preserved by every loop iteration. -/
theorem travInv_step {contrib : Contrib} {seeds : Finset (ImportPath × FPath)}
    {s s' : TravState} (hinv : TravInv contrib seeds s)
    (hstep : Step contrib s s') : TravInv contrib seeds s' := by
  cases hstep with
  | skip ip f hq hv =>
      refine ⟨hinv.visitedReach, ?_, hinv.extChar, ?_, ?_⟩
      · intro p hp; exact hinv.queueReach p (Finset.mem_of_mem_erase hp)
      · intro g hg p hp
        rcases hinv.closedUnder g hg p hp with h | h
        · exact Or.inl h
        · by_cases hpe : p = (ip, f)
          · exact Or.inl (by rw [hpe]; exact hv)
          · exact Or.inr (Finset.mem_erase_of_ne_of_mem hpe h)
      · intro p hp
        rcases hinv.seedsCovered p hp with h | h
        · exact Or.inl h
        · by_cases hpe : p = (ip, f)
          · exact Or.inl (by rw [hpe]; exact hv)
          · exact Or.inr (Finset.mem_erase_of_ne_of_mem hpe h)
  | visit ip f hq hv =>
      have hreachf : Reach contrib seeds f := hinv.queueReach (ip, f) hq
      refine ⟨?_, ?_, ?_, ?_, ?_⟩
      · intro g hg
        rcases Finset.mem_insert.mp hg with h | h
        · rw [h]; exact hreachf
        · exact hinv.visitedReach g h
      · intro p hp
        rcases Finset.mem_union.mp hp with h | h
        · exact hinv.queueReach p (Finset.mem_of_mem_erase h)
        · exact Reach.step f p.1 p.2 hreachf (by simpa using h)
      · intro e
        simp only [Finset.mem_union]
        constructor
        · rintro (h | h)
          · obtain ⟨g, hg, hge⟩ := (hinv.extChar e).mp h
            exact ⟨g, Finset.mem_insert_of_mem hg, hge⟩
          · exact ⟨f, Finset.mem_insert_self _ _, h⟩
        · rintro ⟨g, hg, hge⟩
          rcases Finset.mem_insert.mp hg with h | h
          · exact Or.inr (by rw [← h]; exact hge)
          · exact Or.inl ((hinv.extChar e).mpr ⟨g, h, hge⟩)
      · intro g hg p hp
        rcases Finset.mem_insert.mp hg with h | h
        · refine Or.inr (Finset.mem_union_right _ ?_)
          rw [h] at hp; exact hp
        · rcases hinv.closedUnder g h p hp with h' | h'
          · exact Or.inl (Finset.mem_insert_of_mem h')
          · by_cases hpe : p = (ip, f)
            · exact Or.inl (by rw [hpe]; exact Finset.mem_insert_self _ _)
            · exact Or.inr
                (Finset.mem_union_left _ (Finset.mem_erase_of_ne_of_mem hpe h'))
      · intro p hp
        rcases hinv.seedsCovered p hp with h | h
        · exact Or.inl (Finset.mem_insert_of_mem h)
        · by_cases hpe : p = (ip, f)
          · exact Or.inl (by rw [hpe]; exact Finset.mem_insert_self _ _)
          · exact Or.inr
              (Finset.mem_union_left _ (Finset.mem_erase_of_ne_of_mem hpe h))

/-- The invariant holds at every state the loop can reach. -/
theorem travInv_steps {contrib : Contrib} {seeds : Finset (ImportPath × FPath)}
    {s : TravState} (h : Steps contrib (initState seeds) s) :
    TravInv contrib seeds s := by
  induction h with
  | refl => exact travInv_init _ _
  | tail hst hstep ih => exact travInv_step ih hstep

/-- Once the queue is empty, every reachable file has been processed. -/
theorem reach_mem_visited {contrib : Contrib} {seeds : Finset (ImportPath × FPath)}
    {s : TravState} (hinv : TravInv contrib seeds s) (hq : s.queue = ∅)
    {f : FPath} (hr : Reach contrib seeds f) : f ∈ s.visited := by
  induction hr with
  | seed ip g h =>
      rcases hinv.seedsCovered (ip, g) h with h' | h'
      · exact h'
      · rw [hq] at h'; exact absurd h' (Finset.not_mem_empty _)
  | step g ip' g' hg hmem ih =>
      rcases hinv.closedUnder g ih (ip', g') hmem with h' | h'
      · exact h'
      · rw [hq] at h'; exact absurd h' (Finset.not_mem_empty _)

/-- A drained run has processed exactly the reachable files. -/
theorem final_visited_char {contrib : Contrib}
    {seeds : Finset (ImportPath × FPath)} {s : TravState}
    (h : Steps contrib (initState seeds) s) (hq : s.queue = ∅) (f : FPath) :
    f ∈ s.visited ↔ Reach contrib seeds f := by
  have hinv := travInv_steps h
  exact ⟨hinv.visitedReach f, reach_mem_visited hinv hq⟩

/-- A drained run has accumulated exactly the externals of the reachable
files. -/
theorem final_ext_char {contrib : Contrib} {seeds : Finset (ImportPath × FPath)}
    {s : TravState} (h : Steps contrib (initState seeds) s) (hq : s.queue = ∅)
    (e : String) :
    e ∈ s.externalDeps ↔
      ∃ f, Reach contrib seeds f ∧ e ∈ extOf contrib f := by
  have hinv := travInv_steps h
  rw [hinv.extChar e]
  constructor
  · rintro ⟨f, hf, hfe⟩; exact ⟨f, hinv.visitedReach f hf, hfe⟩
  · rintro ⟨f, hf, hfe⟩; exact ⟨f, reach_mem_visited hinv hq hf, hfe⟩

/-! ### Claim theorems -/

/-- C1 (code bug): a discovered external name whose registry lookup
reports not-found is dropped by `generate_requirements` (it is only
warned about), so `write_requirements` emits no line for it at all — the
name is neither retained in the mapping nor emitted as a bare line,
contradicting the claim, the bare-name branch of `write_requirements`
itself, and the `test_write_requirements` test shipped with the repository. -/
theorem missingVersion_name_dropped :
    generateRequirements (fun _ => none) {"ghostpkg"} = [] ∧
    writeRequirementsLines (fun _ => none) {"ghostpkg"} = [] := by
  constructor <;>
    simp [generateRequirements, writeRequirementsLines, Finset.sort_singleton]

/-- C2: whenever every supplied entry point exists, `cli.main` reaches
the try-block, whose `DependencyAnalyzer(search_paths)` call raises a
`TypeError` (one positional argument against the two required by
`__init__`); the blanket `except` catches it, no output file is written,
and main returns 1 — it never returns 0 after passing path validation. -/
theorem cliMain_never_succeeds (pathExists : String → Bool)
    (entryPoints : List String) (h : entryPoints.all pathExists = true) :
    cliMain pathExists entryPoints = ⟨1, false⟩ := by
  simp [cliMain, h, cliTryBlock, pyCall, analyzerInitParamCount,
    cliInitArgCount]

/-- Witness for C2 at a concrete invocation where all entry points exist. -/
theorem cliMain_never_succeeds_witness :
    (["main.py"].all (fun _ => true) = true) ∧
    cliMain (fun _ => true) ["main.py"] = ⟨1, false⟩ :=
  ⟨by decide, cliMain_never_succeeds (fun _ => true) ["main.py"] (by decide)⟩

/-- C3 counterexample: with the single discovered external name
`requests`, a full `main` run of analyzer.py queries the registry for it
twice (`generate_requirements` is called on line 243 and again inside
`write_requirements` on line 244), refuting the at-most-once claim. -/
theorem versionLookup_twice_counterexample :
    ¬ (analyzerMainQueries {"requests"}).count "requests" ≤ 1 := by
  simp [analyzerMainQueries, generateRequirementsQueries,
    Finset.sort_singleton]

/-- C3 amended: one `generate_requirements` call queries each distinct
discovered name exactly once (and undiscovered names never), but the
`main` of analyzer.py invokes `generate_requirements` twice — once
directly and once inside `write_requirements` — so each distinct name is
queried exactly twice per run. -/
theorem versionLookup_query_counts (externalDeps : Finset String)
    (p : String) :
    (generateRequirementsQueries externalDeps).count p
        = (if p ∈ externalDeps then 1 else 0) ∧
    (analyzerMainQueries externalDeps).count p
        = 2 * (if p ∈ externalDeps then 1 else 0) := by
  have hperm : List.Perm (externalDeps.sort (· ≤ ·)) externalDeps.toList :=
    Finset.sort_perm_toList _ _
  have hcount : (generateRequirementsQueries externalDeps).count p
      = (if p ∈ externalDeps then 1 else 0) := by
    rw [generateRequirementsQueries, hperm.count_eq]
    by_cases hp : p ∈ externalDeps
    · rw [if_pos hp]
      exact List.count_eq_one_of_mem (Finset.nodup_toList _)
        (Finset.mem_toList.mpr hp)
    · rw [if_neg hp]
      exact List.count_eq_zero.mpr (fun hc => hp (Finset.mem_toList.mp hc))
  refine ⟨hcount, ?_⟩
  rw [analyzerMainQueries, List.count_append, hcount, two_mul]

/-- C4 counterexample: the stdlib snapshot is recomputed by every
`analyze_file` call (each constructs a fresh `ImportAnalyzer`, whose
init calls `_get_stdlib_modules`), so a run over two files in which the
ambient environment differs between the two analyses classifies one and
the same import differently — impossible under a single snapshot. -/
theorem stdlibSnapshot_not_once_counterexample :
    runExternals (fun _ => false) []
        (fun i => if i = 0 then {"x"} else ∅) [some [["x"]], some [["x"]]]
      ≠ runExternals (fun _ => false) []
        (fun _ => if (0 : Nat) = 0 then {"x"} else ∅)
        [some [["x"]], some [["x"]]] := by
  intro h
  have h1 : "x" ∈ runExternals (fun _ => false) []
      (fun i => if i = 0 then {"x"} else ∅) [some [["x"]], some [["x"]]] := by
    decide
  rw [h] at h1
  have h2 : "x" ∉ runExternals (fun _ => false) []
      (fun _ => if (0 : Nat) = 0 then ({"x"} : Finset String) else ∅)
      [some [["x"]], some [["x"]]] := by
    decide
  exact h2 h1

/-- C4 amended: the standard-library snapshot is enumerated once per
analyzed file, at `ImportAnalyzer` construction, not once per run; every
classification inside one file consults the snapshot of that file, and only
when the ambient environment is unchanged for the whole run is this
equivalent to one run-wide snapshot taken at the start. -/
theorem stdlibSnapshot_constant_env (fsys : FileSystem)
    (searchPaths : List FPath) (ambient : Nat → Finset String)
    (files : List ParseResult)
    (hconst : ∀ i < files.length, ambient i = ambient 0) :
    runExternals fsys searchPaths ambient files
      = runExternals fsys searchPaths (fun _ => ambient 0) files := by
  unfold runExternals
  apply List.foldl_ext
  intro acc i hi
  rw [hconst i (List.mem_range.mp hi)]

/-- Witness for C4 amended at a concrete run with a constant ambient
environment. -/
theorem stdlibSnapshot_constant_env_witness :
    (∀ i < ([some [["os"]]] : List ParseResult).length,
        (fun _ => ({"os"} : Finset String)) i
          = (fun _ => ({"os"} : Finset String)) 0) ∧
    runExternals (fun _ => false) [] (fun _ => ({"os"} : Finset String))
        [some [["os"]]]
      = runExternals (fun _ => false) []
        (fun _ => (fun _ => ({"os"} : Finset String)) 0) [some [["os"]]] :=
  ⟨by decide,
   stdlibSnapshot_constant_env (fun _ => false) []
     (fun _ => ({"os"} : Finset String)) [some [["os"]]] (by decide)⟩

/-- C5 counterexample: the code pools entry-point parents and extra paths
into a Python set, which deduplicates, so when an extra path equals an
entry-point parent the assembled search list differs from the claimed
ordered list (the latter contains the root twice). -/
theorem searchRoots_dedup_counterexample :
    searchPathsOf (localPathsList [["a", "main.py"]] [["a"]]) [] []
      ≠ claimedSearchPaths [["a", "main.py"]] [["a"]] [] := by
  decide

/-- C5 amended: the search roots are a list fixed for the run, namely a
duplicate-free enumeration (in unspecified order) of the set of
entry-point parent directories and extra paths, followed by the
PYTHONPATH entries and then the PATH entries; the canonical local list of
the embedding is such an enumeration, and for every dotted import the first root
in the assembled list that yields a match wins. -/
theorem searchRoots_first_match (entryPoints additionalPaths pythonPath
    pathEnv : List FPath) (localList : List FPath)
    (hnd : localList.Nodup)
    (henum : localList.toFinset = localPathsSet entryPoints additionalPaths)
    (fsys : FileSystem) (parts : List String) (r : FPath × Bool) :
    (localList.Nodup ∧
      localList.toFinset = localPathsSet entryPoints additionalPaths ∧
      (localPathsList entryPoints additionalPaths).Nodup ∧
      (localPathsList entryPoints additionalPaths).toFinset
        = localPathsSet entryPoints additionalPaths) ∧
    (findModuleFile fsys (searchPathsOf localList pythonPath pathEnv) parts
        = some r ↔
      ∃ pre root post,
        searchPathsOf localList pythonPath pathEnv = pre ++ root :: post ∧
        (∀ b ∈ pre, tryRoot fsys parts b = none) ∧
        tryRoot fsys parts root = some r) := by
  refine ⟨⟨hnd, henum, List.nodup_dedup _, ?_⟩, ?_⟩
  · ext x
    simp [localPathsList, localPathsSet, List.mem_dedup]
  · exact findSome_eq_some_split _ _ _

/-- Witness for C5 amended: a concrete enumeration, filesystem and import
for which the first root matches a module file. -/
theorem searchRoots_first_match_witness :
    (([["a"]] : List FPath).Nodup ∧
      ([["a"]] : List FPath).toFinset
        = localPathsSet [["a", "main.py"]] []) ∧
    ((([["a"]] : List FPath).Nodup ∧
      ([["a"]] : List FPath).toFinset = localPathsSet [["a", "main.py"]] [] ∧
      (localPathsList [["a", "main.py"]] []).Nodup ∧
      (localPathsList [["a", "main.py"]] []).toFinset
        = localPathsSet [["a", "main.py"]] []) ∧
    (findModuleFile (fun p => p == ["a", "x.py"])
        (searchPathsOf [["a"]] [] []) ["x"]
        = some (["a", "x.py"], false) ↔
      ∃ pre root post,
        searchPathsOf [["a"]] [] [] = pre ++ root :: post ∧
        (∀ b ∈ pre, tryRoot (fun p => p == ["a", "x.py"]) ["x"] b = none) ∧
        tryRoot (fun p => p == ["a", "x.py"]) ["x"] root
          = some (["a", "x.py"], false))) := by
  have h := searchRoots_first_match [["a", "main.py"]] [] [] [] [["a"]]
    (by decide) (by decide) (fun p => p == ["a", "x.py"]) ["x"]
    (["a", "x.py"], false)
  exact ⟨⟨by decide, by decide⟩, h⟩

/-- C9: an unparsable file contributes an empty import set and zero
external names, the failure is reported for that file only, the
exception does not escape `analyze_file`, and the traversal step that
visits such a file simply records it and continues draining the
remaining queue unchanged. -/
theorem parseFailure_isolated (stdlib : Finset String) (fsys : FileSystem)
    (searchPaths : List FPath) (filePath : FPath) (contrib : Contrib)
    (s : TravState) (ip : ImportPath) (f : FPath)
    (hc : contrib f = some ⟨∅, ∅⟩) (hq : (ip, f) ∈ s.queue)
    (hv : f ∉ s.visited) :
    analyzeFile stdlib fsys searchPaths none = ⟨∅, ∅⟩ ∧
    analyzeFileErrors none filePath = [filePath] ∧
    Step contrib s ⟨s.queue.erase (ip, f), insert f s.visited,
      s.externalDeps⟩ := by
  refine ⟨rfl, rfl, ?_⟩
  have h := @Step.visit contrib s ip f hq hv
  simpa [newOf, extOf, hc] using h

/-- Witness for C9 at a concrete unparsable file and loop state. -/
theorem parseFailure_isolated_witness :
    ((fun _ => some (⟨∅, ∅⟩ : FileContribution)) (["f.py"] : FPath)
        = some ⟨∅, ∅⟩) ∧
    (((["m"] : ImportPath), (["f.py"] : FPath))
        ∈ (initState {(["m"], ["f.py"])}).queue) ∧
    ((["f.py"] : FPath) ∉ (initState {(["m"], ["f.py"])}).visited) ∧
    (analyzeFile ∅ (fun _ => false) [] none = ⟨∅, ∅⟩ ∧
      analyzeFileErrors none ["f.py"] = [["f.py"]] ∧
      Step (fun _ => some ⟨∅, ∅⟩) (initState {(["m"], ["f.py"])})
        ⟨(initState {(["m"], ["f.py"])}).queue.erase (["m"], ["f.py"]),
         insert ["f.py"] (initState {(["m"], ["f.py"])}).visited,
         (initState {(["m"], ["f.py"])}).externalDeps⟩) :=
  ⟨rfl, by decide, by decide,
   parseFailure_isolated ∅ (fun _ => false) [] ["f.py"]
     (fun _ => some ⟨∅, ∅⟩) (initState {(["m"], ["f.py"])}) ["m"] ["f.py"]
     rfl (by decide) (by decide)⟩

/-- C10: a dotted import whose top-level segment is not in the stdlib
snapshot and which no search root resolves adds exactly the top-level
segment to the external set, leaving the project imports and the work
set untouched, regardless of how many segments the dotted path has. -/
theorem unresolved_import_adds_topLevel (stdlib : Finset String)
    (fsys : FileSystem) (searchPaths : List FPath) (s : ImportState)
    (importName : ImportPath)
    (hstd : importName.headI ∉ stdlib)
    (hmiss : findModuleFile fsys searchPaths importName = none) :
    processImport stdlib fsys searchPaths s importName
      = { s with externalImports :=
            insert importName.headI s.externalImports } := by
  simp [processImport, hstd, hmiss]

/-- Witness for C10 on the three-segment import from scenario 3 of the spec. -/
theorem unresolved_import_adds_topLevel_witness :
    ((["external_pkg", "sub", "thing"] : ImportPath).headI
        ∉ (∅ : Finset String)) ∧
    (findModuleFile (fun _ => false) [["root"]]
        ["external_pkg", "sub", "thing"] = none) ∧
    processImport ∅ (fun _ => false) [["root"]] initImportState
        ["external_pkg", "sub", "thing"]
      = { initImportState with
          externalImports :=
            insert (["external_pkg", "sub", "thing"] : ImportPath).headI initImportState.externalImports } :=
  ⟨by decide, by decide,
   unresolved_import_adds_topLevel ∅ (fun _ => false) [["root"]]
     initImportState ["external_pkg", "sub", "thing"] (by decide) (by decide)⟩

/-- C6: two executions of the `analyze_project` loop on the same
filesystem, environment and entry points that drain the queue — however
`files_to_process.pop()` chose its elements — end with the same
`processed_files` set and the same `external_dependencies` set. -/
theorem analyzeProject_order_independent (contrib : Contrib)
    (seeds : Finset (ImportPath × FPath)) (s₁ s₂ : TravState)
    (h₁ : Steps contrib (initState seeds) s₁) (hq₁ : s₁.queue = ∅)
    (h₂ : Steps contrib (initState seeds) s₂) (hq₂ : s₂.queue = ∅) :
    s₁.visited = s₂.visited ∧ s₁.externalDeps = s₂.externalDeps := by
  constructor
  · ext f
    rw [final_visited_char h₁ hq₁, final_visited_char h₂ hq₂]
  · ext e
    rw [final_ext_char h₁ hq₁, final_ext_char h₂ hq₂]

/-- Witness for C6 on the demonstration run, replayed twice. -/
theorem analyzeProject_order_independent_witness :
    demoFinal.queue = ∅ ∧
    (demoFinal.visited = demoFinal.visited ∧
      demoFinal.externalDeps = demoFinal.externalDeps) :=
  ⟨by decide,
   analyzeProject_order_independent demoContrib demoSeeds demoFinal demoFinal
     (Relation.ReflTransGen.single
       (Step.visit (initState demoSeeds) ["main"] ["main.py"]
         (by decide) (by decide)))
     (by decide)
     (Relation.ReflTransGen.single
       (Step.visit (initState demoSeeds) ["main"] ["main.py"]
         (by decide) (by decide)))
     (by decide)⟩

/-- C7: along any run of the `analyze_project` loop, `processed_files`
only grows, an iteration either discards a popped pair without changing
`processed_files` or `external_dependencies` (the already-visited case,
with no parse) or records exactly one new file, and no file is newly
recorded — hence parsed — at two different iterations. -/
theorem analyzeProject_parse_at_most_once (contrib : Contrib)
    (r : Nat → TravState) (n : Nat)
    (hr : ∀ k, k < n → Step contrib (r k) (r (k + 1))) :
    (∀ i j, i ≤ j → j ≤ n → (r i).visited ⊆ (r j).visited) ∧
    (∀ k, k < n →
        ((r (k + 1)).visited = (r k).visited ∧
          (r (k + 1)).externalDeps = (r k).externalDeps) ∨
        ∃ f, f ∉ (r k).visited ∧
          (r (k + 1)).visited = insert f (r k).visited) ∧
    (∀ i j f, i < n → j < n →
        f ∉ (r i).visited → f ∈ (r (i + 1)).visited →
        f ∉ (r j).visited → f ∈ (r (j + 1)).visited → i = j) := by
  have hmono : ∀ i j, i ≤ j → j ≤ n → (r i).visited ⊆ (r j).visited := by
    intro i j hij hjn
    induction j with
    | zero =>
        have h0 : i = 0 := Nat.le_zero.mp hij
        rw [h0]
    | succ j ih =>
        rcases Nat.lt_or_ge i (j + 1) with h | h
        · have hsub := Step.visited_subset (hr j (by omega))
          exact (ih (by omega) (by omega)).trans hsub
        · have hij' : i = j + 1 := by omega
          rw [hij']
  refine ⟨hmono, ?_, ?_⟩
  · intro k hk
    rcases Step.discard_or_new (hr k hk) with h | ⟨f, hf, hv, _⟩
    · exact Or.inl h
    · exact Or.inr ⟨f, hf, hv⟩
  · intro i j f hi hj hfi hfi1 hfj hfj1
    rcases lt_trichotomy i j with h | h | h
    · exact absurd (hmono (i + 1) j (by omega) (by omega) hfi1) (by exact fun hc => hfj hc)
    · exact h
    · exact absurd (hmono (j + 1) i (by omega) (by omega) hfj1) (by exact fun hc => hfi hc)

/-- Witness for C7 on the one-step demonstration run. -/
theorem analyzeProject_parse_at_most_once_witness :
    (∀ k, k < 1 → Step demoContrib (demoRun k) (demoRun (k + 1))) ∧
    ((∀ i j, i ≤ j → j ≤ 1 → (demoRun i).visited ⊆ (demoRun j).visited) ∧
      (∀ k, k < 1 →
          ((demoRun (k + 1)).visited = (demoRun k).visited ∧
            (demoRun (k + 1)).externalDeps = (demoRun k).externalDeps) ∨
          ∃ f, f ∉ (demoRun k).visited ∧
            (demoRun (k + 1)).visited = insert f (demoRun k).visited) ∧
      (∀ i j f, i < 1 → j < 1 →
          f ∉ (demoRun i).visited → f ∈ (demoRun (i + 1)).visited →
          f ∉ (demoRun j).visited → f ∈ (demoRun (j + 1)).visited →
          i = j)) := by
  have hr : ∀ k, k < 1 → Step demoContrib (demoRun k) (demoRun (k + 1)) := by
    intro k hk
    have hk0 : k = 0 := by omega
    subst hk0
    simpa [demoRun, demoFinal] using
      @Step.visit demoContrib (initState demoSeeds) ["main"]
        ["main.py"] (by decide) (by decide)
  exact ⟨hr, analyzeProject_parse_at_most_once demoContrib demoRun 1 hr⟩

/-- Every non-final state of the loop can take a step: a nonempty queue
always pops, into either the discard branch or the visit branch. -/
theorem step_progress (contrib : Contrib) (s : TravState)
    (hne : s.queue ≠ ∅) : ∃ s', Step contrib s s' := by
  obtain ⟨p, hp⟩ := Finset.nonempty_iff_ne_empty.mpr hne
  obtain ⟨ip, f⟩ := p
  by_cases hv : f ∈ s.visited
  · exact ⟨_, Step.skip s ip f hp hv⟩
  · exact ⟨_, Step.visit s ip f hp hv⟩

/-- The queue stays inside the finite pair universe. -/
theorem step_queue_sub {contrib : Contrib}
    {QU : Finset (ImportPath × FPath)} {s s' : TravState}
    (hcontrib : ∀ f, newOf contrib f ⊆ QU) (hq : s.queue ⊆ QU)
    (h : Step contrib s s') : s'.queue ⊆ QU := by
  cases h with
  | skip ip f hqm hv => exact (Finset.erase_subset _ _).trans hq
  | visit ip f hqm hv =>
      exact Finset.union_subset ((Finset.erase_subset _ _).trans hq)
        (hcontrib f)

/-- Every loop iteration strictly decreases the termination measure. -/
theorem step_measure_lt {contrib : Contrib} {U : Finset FPath}
    {QU : Finset (ImportPath × FPath)} {s s' : TravState}
    (hcontrib : ∀ f, newOf contrib f ⊆ QU)
    (hQU : ∀ p ∈ QU, p.2 ∈ U) (hq : s.queue ⊆ QU)
    (h : Step contrib s s') :
    travMeasure U QU s' < travMeasure U QU s := by
  cases h with
  | skip ip f hqm hv =>
      have hlt : (s.queue.erase (ip, f)).card < s.queue.card :=
        Finset.card_erase_lt_of_mem hqm
      simp only [travMeasure]
      omega
  | visit ip f hqm hv =>
      have hfU : f ∈ U := hQU (ip, f) (hq hqm)
      have hfd : f ∈ U \ s.visited := Finset.mem_sdiff.mpr ⟨hfU, hv⟩
      have hins : U \ insert f s.visited = (U \ s.visited).erase f :=
        Finset.sdiff_insert U s.visited f
      have hkcard : (U \ s.visited).card
          = ((U \ s.visited).erase f).card + 1 :=
        (Finset.card_erase_add_one hfd).symm
      have hqcard : (s.queue.erase (ip, f) ∪ newOf contrib f).card
          ≤ QU.card :=
        Finset.card_le_card
          (Finset.union_subset ((Finset.erase_subset _ _).trans hq)
            (hcontrib f))
      simp only [travMeasure, hins, hkcard]
      calc ((U \ s.visited).erase f).card * (QU.card + 1)
            + (s.queue.erase (ip, f) ∪ newOf contrib f).card
          < ((U \ s.visited).erase f).card * (QU.card + 1)
            + (QU.card + 1) := by omega
        _ = (((U \ s.visited).erase f).card + 1) * (QU.card + 1) := by ring
        _ ≤ (((U \ s.visited).erase f).card + 1) * (QU.card + 1)
            + s.queue.card := Nat.le_add_right _ _

/-- C8: over a finite file universe `U` (with `QU` the finite universe of
queue pairs: the seeds and everything the analysis of any file can enqueue),
the loop always makes progress on a nonempty queue and admits no
infinite run: every iteration either discards a pair or adds a new file
to the monotonically growing visited set, so the queue drains. -/
theorem analyzeProject_terminates (contrib : Contrib)
    (seeds : Finset (ImportPath × FPath)) (U : Finset FPath)
    (QU : Finset (ImportPath × FPath)) (hseeds : seeds ⊆ QU)
    (hQU : ∀ p ∈ QU, p.2 ∈ U) (hcontrib : ∀ f, newOf contrib f ⊆ QU) :
    (∀ s : TravState, s.queue ≠ ∅ → ∃ s', Step contrib s s') ∧
    ¬ ∃ r : Nat → TravState, r 0 = initState seeds ∧
        ∀ k, Step contrib (r k) (r (k + 1)) := by
  refine ⟨step_progress contrib, ?_⟩
  rintro ⟨r, hr0, hrs⟩
  have hqsub : ∀ k, (r k).queue ⊆ QU := by
    intro k
    induction k with
    | zero => rw [hr0]; exact hseeds
    | succ k ih => exact step_queue_sub hcontrib ih (hrs k)
  have hdec : ∀ k, travMeasure U QU (r (k + 1)) < travMeasure U QU (r k) :=
    fun k => step_measure_lt hcontrib hQU (hqsub k) (hrs k)
  have hle : ∀ k, travMeasure U QU (r k) + k ≤ travMeasure U QU (r 0) := by
    intro k
    induction k with
    | zero => omega
    | succ k ih =>
        have := hdec k
        omega
  have := hle (travMeasure U QU (r 0) + 1)
  omega

/-- Witness for C8 on the demonstration instance with its one-file
universe. -/
theorem analyzeProject_terminates_witness :
    (demoSeeds ⊆ demoSeeds) ∧
    ((∀ s : TravState, s.queue ≠ ∅ → ∃ s', Step demoContrib s s') ∧
      ¬ ∃ r : Nat → TravState, r 0 = initState demoSeeds ∧
          ∀ k, Step demoContrib (r k) (r (k + 1))) :=
  ⟨by decide,
   analyzeProject_terminates demoContrib demoSeeds {["main.py"]} demoSeeds
     (by decide) (by decide) (fun f => by simp [newOf, demoContrib])⟩

end Monodeps
